import Mathlib

/- Verification of the RSI engine of apps/om1-runtime: the functions
`calculate_rsi` and `interpret_rsi` of utils/rsi.py, and the duplicated
interpreter `BitcoinPriceInput._interpret_rsi` of
src/inputs/bitcoin_price/plugin.py.

Modeling conventions.  Python/numpy floats are modeled as exact rationals.
The one float-specific behavior the code can exhibit is IEEE NaN, produced by
`np.mean` of an empty slice (reachable when `period = 0`); a float value is
therefore `Option ℚ`, with `none` standing for NaN and `some q` for the finite
value `q`.  The `period` argument (a Python `int`, default 14, always
non-negative in every call site of the repository) is modeled as `ℕ`.
Fallible code returns `Except PyErr`. -/

/-- A Python float as it flows through rsi.py: `none` models IEEE NaN. -/
abbrev PyFloat := Option ℚ

/-- Float addition; NaN propagates. -/
def fAdd : PyFloat → PyFloat → PyFloat
  | some a, some b => some (a + b)
  | _, _ => none

/-- Float subtraction; NaN propagates. -/
def fSub : PyFloat → PyFloat → PyFloat
  | some a, some b => some (a - b)
  | _, _ => none

/-- Float multiplication; NaN propagates. -/
def fMul : PyFloat → PyFloat → PyFloat
  | some a, some b => some (a * b)
  | _, _ => none

/-- Float division as numpy performs it on scalars; NaN propagates.  A zero
divisor is mapped to NaN: in rsi.py the divisor is zero only when `period = 0`,
and on that path the numerator is already NaN (seeded by the empty-slice mean),
so NaN over zero — which is NaN in IEEE arithmetic as well — is the only
zero-divisor case the program can reach; finite-over-zero (IEEE infinity) is
unreachable. -/
def fDiv : PyFloat → PyFloat → PyFloat
  | some a, some b => if b = 0 then none else some (a / b)
  | _, _ => none

/-- The Python comparison `x == 0` on a float: NaN compares unequal to 0. -/
def fIsZero : PyFloat → Bool
  | some a => decide (a = 0)
  | none => false

/-- An element of the `prices` argument of `calculate_rsi`: either a raw price
(float) or a candle dict carrying a numeric close field. -/
inductive PriceEntry : Type
  | num (v : ℚ)
  | candle (close : ℚ)
deriving DecidableEq, Repr

/-- Python errors `calculate_rsi` can raise. -/
inductive PyErr : Type
  | indexError
  | typeError
deriving DecidableEq, Repr

/-- Line 24 of rsi.py, one element: `candle['close']` — subscripting a float
raises TypeError. -/
def closeField : PriceEntry → Except PyErr ℚ
  | PriceEntry.candle c => Except.ok c
  | PriceEntry.num _ => Except.error PyErr.typeError

/-- Line 24 of rsi.py: the comprehension `[candle['close'] for candle in
prices]`. -/
def projectCloses : List PriceEntry → Except PyErr (List ℚ)
  | [] => Except.ok []
  | e :: rest =>
    match closeField e with
    | Except.error er => Except.error er
    | Except.ok c =>
      match projectCloses rest with
      | Except.error er => Except.error er
      | Except.ok cs => Except.ok (c :: cs)

/-- Line 30 of rsi.py, one element: `np.array(prices, dtype=float)` coercing an
entry to float — a dict entry raises TypeError. -/
def entryFloat : PriceEntry → Except PyErr ℚ
  | PriceEntry.num v => Except.ok v
  | PriceEntry.candle _ => Except.error PyErr.typeError

/-- Line 30 of rsi.py: conversion of the price list to a float array. -/
def toFloats : List PriceEntry → Except PyErr (List ℚ)
  | [] => Except.ok []
  | e :: rest =>
    match entryFloat e with
    | Except.error er => Except.error er
    | Except.ok v =>
      match toFloats rest with
      | Except.error er => Except.error er
      | Except.ok vs => Except.ok (v :: vs)

/-- Line 33 of rsi.py: `np.diff(prices)`, the list of first differences. -/
def deltasOf (ps : List ℚ) : List ℚ :=
  List.zipWith (fun a b => b - a) ps ps.tail

/-- Line 36 of rsi.py, one element: `np.where(deltas > 0, deltas, 0)`. -/
def gainOf (d : ℚ) : ℚ := if 0 < d then d else 0

/-- Line 37 of rsi.py, one element: `np.where(deltas < 0, -deltas, 0)`. -/
def lossOf (d : ℚ) : ℚ := if d < 0 then -d else 0

/-- Lines 40-41 of rsi.py: `np.mean`, which yields NaN on an empty slice. -/
def npMean (l : List ℚ) : PyFloat :=
  if l.isEmpty then none else some (l.sum / (l.length : ℚ))

/-- Lines 45-46 of rsi.py: one iteration of the Wilder smoothing loop, updating
the running (avg_gain, avg_loss) pair with the next (gain, loss) pair. -/
def smoothStep (period : ℕ) (av : PyFloat × PyFloat) (gl : ℚ × ℚ) :
    PyFloat × PyFloat :=
  (fDiv (fAdd (fMul av.1 (some ((period : ℚ) - 1))) (some gl.1))
    (some (period : ℚ)),
   fDiv (fAdd (fMul av.2 (some ((period : ℚ) - 1))) (some gl.2))
    (some (period : ℚ)))

/-- Lines 33-46 of rsi.py: the final (avg_gain, avg_loss) pair — simple-mean
seeds over the first `period` gains/losses, then the smoothing loop over the
remaining deltas. -/
def rsiAvgs (ps : List ℚ) (period : ℕ) : PyFloat × PyFloat :=
  let deltas := deltasOf ps
  let gains := deltas.map gainOf
  let losses := deltas.map lossOf
  ((gains.drop period).zip (losses.drop period)).foldl (smoothStep period)
    (npMean (gains.take period), npMean (losses.take period))

/-- Lines 30-56 of rsi.py: the numeric core run on the float array once the
length guard has passed (also total on shorter inputs, as the Python code is).
Returns `some 100` when the final average loss compares equal to zero,
otherwise `100 - 100/(1 + avg_gain/avg_loss)` in float arithmetic. -/
def rsiCore (ps : List ℚ) (period : ℕ) : PyFloat :=
  let avgs := rsiAvgs ps period
  if fIsZero avgs.2 then some 100
  else fSub (some 100) (fDiv (some 100) (fAdd (some 1) (fDiv avgs.1 avgs.2)))

/-- Lines 11-56 of rsi.py, `calculate_rsi`.  Control flow mirrors the source:
`prices[0]` is probed first (IndexError on an empty list); if the first entry
is a dict, close fields are projected from every entry; the insufficient-data
guard `len(prices) < period + 1` then returns the neutral 50.0; otherwise the
entries are coerced to a float array and the numeric core runs. -/
def calculate_rsi (prices : List PriceEntry) (period : ℕ) :
    Except PyErr PyFloat :=
  match prices with
  | [] => Except.error PyErr.indexError
  | first :: rest =>
    match first with
    | PriceEntry.candle _ =>
      match projectCloses (first :: rest) with
      | Except.error er => Except.error er
      | Except.ok qs =>
        if qs.length < period + 1 then Except.ok (some 50)
        else Except.ok (rsiCore qs period)
    | PriceEntry.num _ =>
      if (first :: rest).length < period + 1 then Except.ok (some 50)
      else
        match toFloats (first :: rest) with
        | Except.error er => Except.error er
        | Except.ok qs => Except.ok (rsiCore qs period)

/-- Lines 59-74 of rsi.py: `interpret_rsi`. -/
def interpret_rsi (rsi : ℚ) : String :=
  if rsi < 30 then "oversold"
  else if rsi > 70 then "overbought"
  else "neutral"

/-- Lines 88-103 of src/inputs/bitcoin_price/plugin.py: the duplicated
interpreter `BitcoinPriceInput._interpret_rsi` (the leading underscore is
dropped for Lean). -/
def BitcoinPriceInput.interpret_rsi (rsi : ℚ) : String :=
  if rsi < 30 then "oversold"
  else if rsi > 70 then "overbought"
  else "neutral"

/-- Spec §4.1 step 4, one iteration on exact reals: Wilder smoothing of the
(avgGain, avgLoss) pair by the next (gain, loss) pair. -/
def specSmooth (period : ℕ) (av : ℚ × ℚ) (gl : ℚ × ℚ) : ℚ × ℚ :=
  ((av.1 * ((period : ℚ) - 1) + gl.1) / (period : ℚ),
   (av.2 * ((period : ℚ) - 1) + gl.2) / (period : ℚ))

/-- Spec §4.1 steps 1-4 on exact reals: first differences, gain/loss partition
via max, arithmetic-mean seeds over the first `period` gains/losses, then
Wilder smoothing over the remaining deltas. -/
def specAvgs (prices : List ℚ) (period : ℕ) : ℚ × ℚ :=
  let delta := deltasOf prices
  let gain := delta.map (fun d => max d 0)
  let loss := delta.map (fun d => max (-d) 0)
  ((gain.drop period).zip (loss.drop period)).foldl (specSmooth period)
    ((gain.take period).sum / ((gain.take period).length : ℚ),
     (loss.take period).sum / ((loss.take period).length : ℚ))

/-- Spec §4.1 steps 5-6: the reference Wilder RSI value on exact reals,
`100.0` when the final average loss is zero, else `100 - 100/(1 + RS)` with
`RS = avgGain/avgLoss`. -/
def specRSI (prices : List ℚ) (period : ℕ) : ℚ :=
  let fin := specAvgs prices period
  if fin.2 = 0 then 100 else 100 - 100 / (1 + fin.1 / fin.2)

/-- Converting a list of raw numeric entries to floats never fails and returns
the underlying rationals. -/
theorem toFloats_map_num (ps : List ℚ) :
    toFloats (ps.map PriceEntry.num) = Except.ok ps := by
  induction ps with
  | nil => rfl
  | cons a t ih => simp [toFloats, entryFloat, ih]

/-- Projecting close fields from a list of candle entries never fails and
returns the underlying close prices. -/
theorem projectCloses_map_candle (ps : List ℚ) :
    projectCloses (ps.map PriceEntry.candle) = Except.ok ps := by
  induction ps with
  | nil => rfl
  | cons a t ih => simp [projectCloses, closeField, ih]

/-- On a numeric price list long enough for the guard, calculate_rsi runs the
numeric core. -/
theorem calculate_rsi_num_core (ps : List ℚ) (p : ℕ) (hlen : p + 1 ≤ ps.length) :
    calculate_rsi (ps.map PriceEntry.num) p = Except.ok (rsiCore ps p) := by
  cases ps with
  | nil => simp at hlen
  | cons q rest =>
    have hg : ¬ (rest.length < p) := by
      simp only [List.length_cons] at hlen
      omega
    have hfl : toFloats (PriceEntry.num q :: rest.map PriceEntry.num) =
        Except.ok (q :: rest) := toFloats_map_num (q :: rest)
    simp [calculate_rsi, hg, hfl]

/-- On a non-empty numeric price list shorter than the guard, calculate_rsi
returns the neutral 50. -/
theorem calculate_rsi_num_insufficient (ps : List ℚ) (p : ℕ) (hne : ps ≠ [])
    (hlt : ps.length < p + 1) :
    calculate_rsi (ps.map PriceEntry.num) p = Except.ok (some 50) := by
  cases ps with
  | nil => simp at hne
  | cons q rest =>
    have hg : rest.length < p := by
      simp only [List.length_cons] at hlt
      omega
    simp [calculate_rsi, hg]

/-- The smoothing loop started from a NaN pair stays NaN forever. -/
theorem foldl_smoothStep_none (p : ℕ) (l : List (ℚ × ℚ)) :
    l.foldl (smoothStep p) ((none : PyFloat), (none : PyFloat)) = (none, none) := by
  induction l with
  | nil => rfl
  | cons x t ih =>
    simpa [List.foldl_cons, smoothStep, fMul, fAdd, fDiv] using ih

/-- With period 0, the seed means are taken over empty slices, so the numeric
core evaluates to NaN on every price list. -/
theorem rsiCore_period_zero (ps : List ℚ) : rsiCore ps 0 = none := by
  have havg : rsiAvgs ps 0 = (none, none) := by
    simp only [rsiAvgs, List.take_zero, List.drop_zero, npMean, List.isEmpty_nil,
      if_true]
    exact foldl_smoothStep_none 0 _
  simp [rsiCore, havg, fIsZero, fDiv, fAdd, fSub]

/-- C2: rsi.py probes `prices[0]` before the insufficient-data guard, so the
empty price list raises IndexError instead of returning the documented neutral
50.0; a non-empty but too-short list (single element, period 14) does return
50.0 as specified. -/
theorem calculate_rsi_empty_raises :
    calculate_rsi ([] : List PriceEntry) 14 = Except.error PyErr.indexError ∧
    calculate_rsi [PriceEntry.num 5] 14 = Except.ok (some 50) := by
  exact ⟨rfl, rfl⟩

/-- C3 counterexample: at period 0 (a period < 1) on the prices [1, 2], the
code does not fail with any InvalidArgument condition — it returns normally,
carrying the NaN produced by the empty-slice seed mean. -/
theorem calculate_rsi_period_zero_no_failure :
    calculate_rsi [PriceEntry.num 1, PriceEntry.num 2] 0 = Except.ok none := by
  rfl

/-- C3 amended: calculate_rsi performs no validation of the period argument;
for period 0 and any non-empty numeric price list it raises nothing and
returns NaN (a garbage RSI value) to the caller. -/
theorem calculate_rsi_period_zero_returns_nan (ps : List ℚ) (hne : ps ≠ []) :
    calculate_rsi (ps.map PriceEntry.num) 0 = Except.ok none := by
  have hlen : 0 + 1 ≤ ps.length := by
    cases ps with
    | nil => simp at hne
    | cons a t => simp
  rw [calculate_rsi_num_core ps 0 hlen, rsiCore_period_zero]

/-- Witness for the C3 amended theorem at the concrete list [3, 4, 5]. -/
theorem calculate_rsi_period_zero_returns_nan_witness :
    calculate_rsi ([3, 4, 5].map PriceEntry.num) 0 = Except.ok none :=
  calculate_rsi_period_zero_returns_nan [3, 4, 5] (by decide)

/-- C5: interpret_rsi maps rsi < 30 to oversold, rsi > 70 to overbought and
everything in between — the boundaries 30 and 70 included — to neutral, with
29.999 oversold and 70.001 overbought. -/
theorem interpret_rsi_zones (r : ℚ) :
    (r < 30 → interpret_rsi r = "oversold") ∧
    (70 < r → interpret_rsi r = "overbought") ∧
    (30 ≤ r → r ≤ 70 → interpret_rsi r = "neutral") ∧
    interpret_rsi 30 = "neutral" ∧
    interpret_rsi 70 = "neutral" ∧
    interpret_rsi (29999 / 1000) = "oversold" ∧
    interpret_rsi (70001 / 1000) = "overbought" := by
  refine ⟨fun h => ?_, fun h => ?_, fun h1 h2 => ?_, ?_, ?_, ?_, ?_⟩
  · simp [interpret_rsi, h]
  · have h3 : ¬ r < 30 := by linarith
    simp [interpret_rsi, h3, h]
  · have h3 : ¬ r < 30 := not_lt.mpr h1
    have h4 : ¬ r > 70 := not_lt.mpr h2
    simp [interpret_rsi, h3, h4]
  · norm_num [interpret_rsi]
  · norm_num [interpret_rsi]
  · norm_num [interpret_rsi]
  · norm_num [interpret_rsi]

/-- Witness for C5 at the concrete inputs 10, 80 and 50. -/
theorem interpret_rsi_zones_witness :
    interpret_rsi 10 = "oversold" ∧ interpret_rsi 80 = "overbought" ∧
    interpret_rsi 50 = "neutral" :=
  ⟨(interpret_rsi_zones 10).1 (by norm_num),
   (interpret_rsi_zones 80).2.1 (by norm_num),
   (interpret_rsi_zones 50).2.2.1 (by norm_num) (by norm_num)⟩

/-- C9: the interpreter duplicated in the bitcoin_price plugin agrees with the
utils interpreter on every input. -/
theorem plugin_interpreter_eq_util (r : ℚ) :
    BitcoinPriceInput.interpret_rsi r = interpret_rsi r := rfl

/-- C10: interpret_rsi is total over all rationals — it always returns one of
the three labels, sending everything below 30 (negatives included) to oversold
and everything above 70 (values above 100 included) to overbought. -/
theorem interpret_rsi_total (r : ℚ) :
    (interpret_rsi r = "oversold" ∨ interpret_rsi r = "neutral" ∨
      interpret_rsi r = "overbought") ∧
    (r < 30 → interpret_rsi r = "oversold") ∧
    (70 < r → interpret_rsi r = "overbought") := by
  refine ⟨?_, fun h => by simp [interpret_rsi, h], fun h => ?_⟩
  · unfold interpret_rsi
    split_ifs <;> simp
  · have h3 : ¬ r < 30 := by linarith
    simp [interpret_rsi, h3, h]

/-- Witness for C10 at the out-of-domain inputs -5 and 150. -/
theorem interpret_rsi_total_witness :
    interpret_rsi (-5) = "oversold" ∧ interpret_rsi 150 = "overbought" :=
  ⟨(interpret_rsi_total (-5)).2.1 (by norm_num),
   (interpret_rsi_total 150).2.2 (by norm_num)⟩

/-- The numpy gain partition agrees with the spec's max formulation. -/
theorem gainOf_eq_max (d : ℚ) : gainOf d = max d 0 := by
  unfold gainOf
  rcases lt_or_le 0 d with h | h
  · rw [if_pos h, max_eq_left h.le]
  · rw [if_neg (not_lt.mpr h), max_eq_right h]

/-- The numpy loss partition agrees with the spec's max formulation. -/
theorem lossOf_eq_max (d : ℚ) : lossOf d = max (-d) 0 := by
  unfold lossOf
  rcases lt_or_le d 0 with h | h
  · rw [if_pos h, max_eq_left (by linarith)]
  · rw [if_neg (not_lt.mpr h), max_eq_right (by linarith)]

/-- `np.diff` produces one fewer element than its input. -/
theorem deltasOf_length (ps : List ℚ) : (deltasOf ps).length = ps.length - 1 := by
  simp [deltasOf, List.length_zipWith, List.length_tail]

/-- The float smoothing loop started from finite seeds computes exactly the
spec's rational smoothing fold, componentwise, whenever the period is a
nonzero divisor. -/
theorem foldl_smoothStep_some (p : ℕ) (hp : (p : ℚ) ≠ 0) (l : List (ℚ × ℚ)) :
    ∀ a b : ℚ, l.foldl (smoothStep p) (some a, some b) =
      (some (l.foldl (specSmooth p) (a, b)).1,
       some (l.foldl (specSmooth p) (a, b)).2) := by
  induction l with
  | nil => intro a b; rfl
  | cons x t ih =>
    intro a b
    have hstep : smoothStep p ((some a : PyFloat), (some b : PyFloat)) x =
        (some ((a * ((p : ℚ) - 1) + x.1) / (p : ℚ)),
         some ((b * ((p : ℚ) - 1) + x.2) / (p : ℚ))) := by
      simp [smoothStep, fMul, fAdd, fDiv, hp]
    have hspec : specSmooth p (a, b) x =
        ((a * ((p : ℚ) - 1) + x.1) / (p : ℚ),
         (b * ((p : ℚ) - 1) + x.2) / (p : ℚ)) := rfl
    simp only [List.foldl_cons, hstep, hspec]
    exact ih _ _

/-- The spec's rational smoothing fold keeps both components non-negative when
fed non-negative gains and losses from non-negative seeds. -/
theorem foldl_specSmooth_nonneg (p : ℕ) (hp : 1 ≤ p) (l : List (ℚ × ℚ)) :
    ∀ a b : ℚ, (∀ x ∈ l, 0 ≤ x.1 ∧ 0 ≤ x.2) → 0 ≤ a → 0 ≤ b →
      0 ≤ (l.foldl (specSmooth p) (a, b)).1 ∧
      0 ≤ (l.foldl (specSmooth p) (a, b)).2 := by
  induction l with
  | nil => intro a b _ ha hb; exact ⟨ha, hb⟩
  | cons x t ih =>
    intro a b hl ha hb
    have hx := hl x (List.mem_cons_self x t)
    have hp1 : (1 : ℚ) ≤ (p : ℚ) := by exact_mod_cast hp
    have hpnn : (0 : ℚ) ≤ (p : ℚ) := by linarith
    have h1 : 0 ≤ (a * ((p : ℚ) - 1) + x.1) / (p : ℚ) :=
      div_nonneg (add_nonneg (mul_nonneg ha (by linarith)) hx.1) hpnn
    have h2 : 0 ≤ (b * ((p : ℚ) - 1) + x.2) / (p : ℚ) :=
      div_nonneg (add_nonneg (mul_nonneg hb (by linarith)) hx.2) hpnn
    simp only [List.foldl_cons]
    exact ih _ _ (fun y hy => hl y (List.mem_cons_of_mem x hy)) h1 h2

/-- Both components of the spec's final averages are non-negative. -/
theorem specAvgs_nonneg (ps : List ℚ) (p : ℕ) (hp : 1 ≤ p) :
    0 ≤ (specAvgs ps p).1 ∧ 0 ≤ (specAvgs ps p).2 := by
  unfold specAvgs
  apply foldl_specSmooth_nonneg p hp
  · intro x hx
    obtain ⟨h1, h2⟩ := List.of_mem_zip hx
    constructor
    · obtain ⟨d, _, hd⟩ := List.mem_map.mp (List.drop_subset _ _ h1)
      rw [← hd]; exact le_max_right d 0
    · obtain ⟨d, _, hd⟩ := List.mem_map.mp (List.drop_subset _ _ h2)
      rw [← hd]; exact le_max_right (-d) 0
  · apply div_nonneg _ (Nat.cast_nonneg _)
    apply List.sum_nonneg
    intro x hx
    obtain ⟨d, _, hd⟩ := List.mem_map.mp (List.mem_of_mem_take hx)
    rw [← hd]; exact le_max_right d 0
  · apply div_nonneg _ (Nat.cast_nonneg _)
    apply List.sum_nonneg
    intro x hx
    obtain ⟨d, _, hd⟩ := List.mem_map.mp (List.mem_of_mem_take hx)
    rw [← hd]; exact le_max_right (-d) 0

/-- `np.mean` on a non-empty slice is the sum divided by the length. -/
theorem npMean_of_length_pos (l : List ℚ) (h : 0 < l.length) :
    npMean l = some (l.sum / (l.length : ℚ)) := by
  cases l with
  | nil => simp at h
  | cons a t => simp [npMean]

/-- For a valid period and enough data, the float averages of rsi.py are the
spec's rational averages, wrapped in `some`. -/
theorem rsiAvgs_eq_spec (ps : List ℚ) (p : ℕ) (hp : 1 ≤ p)
    (hlen : p + 1 ≤ ps.length) :
    rsiAvgs ps p = (some (specAvgs ps p).1, some (specAvgs ps p).2) := by
  have hpq : (p : ℚ) ≠ 0 := Nat.cast_ne_zero.mpr (by omega)
  have hgf : gainOf = fun d : ℚ => max d 0 := funext gainOf_eq_max
  have hlf : lossOf = fun d : ℚ => max (-d) 0 := funext lossOf_eq_max
  have hGlen : (((deltasOf ps).map (fun d : ℚ => max d 0)).take p).length = p := by
    simp only [List.length_take, List.length_map, deltasOf_length]
    omega
  have hLlen : (((deltasOf ps).map (fun d : ℚ => max (-d) 0)).take p).length = p := by
    simp only [List.length_take, List.length_map, deltasOf_length]
    omega
  simp only [rsiAvgs, specAvgs, hgf, hlf]
  rw [npMean_of_length_pos _ (by rw [hGlen]; omega),
    npMean_of_length_pos _ (by rw [hLlen]; omega)]
  exact foldl_smoothStep_some p hpq _ _ _

/-- When the final average loss is exactly zero, the core returns 100. -/
theorem rsiCore_avgs_zero (ps : List ℚ) (p : ℕ) (g : ℚ)
    (h : rsiAvgs ps p = (some g, some 0)) : rsiCore ps p = some 100 := by
  simp [rsiCore, h, fIsZero]

/-- When the final average loss is finite and positive, the core returns the
RSI formula over the ratio of averages. -/
theorem rsiCore_avgs_pos (ps : List ℚ) (p : ℕ) (g l : ℚ)
    (h : rsiAvgs ps p = (some g, some l)) (hg : 0 ≤ g) (hl : 0 < l) :
    rsiCore ps p = some (100 - 100 / (1 + g / l)) := by
  have hlz : l ≠ 0 := ne_of_gt hl
  have hrs : 0 ≤ g / l := div_nonneg hg hl.le
  have h1 : (1 : ℚ) + g / l ≠ 0 := by linarith
  simp [rsiCore, h, fIsZero, hlz, fDiv, fAdd, fSub, h1]

/-- C1: on every numeric price list with at least period + 1 entries and every
period of at least 1, calculate_rsi computes exactly the reference Wilder RSI
of spec section 4.1. -/
theorem calculate_rsi_matches_wilder_spec (ps : List ℚ) (p : ℕ) (hp : 1 ≤ p)
    (hlen : p + 1 ≤ ps.length) :
    calculate_rsi (ps.map PriceEntry.num) p = Except.ok (some (specRSI ps p)) := by
  rw [calculate_rsi_num_core ps p hlen]
  have havg := rsiAvgs_eq_spec ps p hp hlen
  have hnn := specAvgs_nonneg ps p hp
  by_cases hz : (specAvgs ps p).2 = 0
  · rw [rsiCore_avgs_zero ps p _ (by rw [havg, hz])]
    simp [specRSI, hz]
  · have hl : 0 < (specAvgs ps p).2 := lt_of_le_of_ne hnn.2 (Ne.symm hz)
    rw [rsiCore_avgs_pos ps p _ _ havg hnn.1 hl]
    simp [specRSI, hz]

/-- Witness for C1 at the concrete prices [1, 2, 1] with period 1. -/
theorem calculate_rsi_matches_wilder_spec_witness :
    calculate_rsi ([1, 2, 1].map PriceEntry.num) 1 =
      Except.ok (some (specRSI [1, 2, 1] 1)) :=
  calculate_rsi_matches_wilder_spec [1, 2, 1] 1 (by norm_num) (by decide)

/-- The spec smoothing fold keeps the loss component at zero when every
incoming loss is zero. -/
theorem foldl_specSmooth_snd_zero (p : ℕ) (l : List (ℚ × ℚ))
    (hl : ∀ x ∈ l, x.2 = 0) :
    ∀ a : ℚ, (l.foldl (specSmooth p) (a, 0)).2 = 0 := by
  induction l with
  | nil => intro a; rfl
  | cons x t ih =>
    intro a
    have hx : x.2 = 0 := hl x (List.mem_cons_self x t)
    have hstep : specSmooth p (a, 0) x =
        ((a * ((p : ℚ) - 1) + x.1) / (p : ℚ), 0) := by
      simp [specSmooth, hx]
    simp only [List.foldl_cons, hstep]
    exact ih (fun y hy => hl y (List.mem_cons_of_mem x hy)) _

/-- With only non-negative deltas the final spec average loss is zero. -/
theorem specAvgs_snd_zero (ps : List ℚ) (p : ℕ)
    (hd : ∀ d ∈ deltasOf ps, 0 ≤ d) : (specAvgs ps p).2 = 0 := by
  have hzero : ∀ x ∈ (deltasOf ps).map (fun d : ℚ => max (-d) 0), x = 0 := by
    intro x hx
    obtain ⟨d, hdm, hdx⟩ := List.mem_map.mp hx
    have := hd d hdm
    rw [← hdx, max_eq_right (by linarith)]
  have hsum : (((deltasOf ps).map (fun d : ℚ => max (-d) 0)).take p).sum = 0 :=
    List.sum_eq_zero (fun x hx => hzero x (List.mem_of_mem_take hx))
  simp only [specAvgs]
  rw [hsum, zero_div]
  apply foldl_specSmooth_snd_zero
  intro x hx
  obtain ⟨-, h2⟩ := List.of_mem_zip hx
  exact hzero x.2 (List.drop_subset _ _ h2)

/-- C4: on valid inputs calculate_rsi returns exactly 100 iff the final
smoothed average loss is zero; in particular any price list all of whose
deltas are non-negative (monotonically non-decreasing, flat included) yields
exactly 100. -/
theorem calculate_rsi_100_iff_avg_loss_zero (ps : List ℚ) (p : ℕ) (hp : 1 ≤ p)
    (hlen : p + 1 ≤ ps.length) :
    (calculate_rsi (ps.map PriceEntry.num) p = Except.ok (some 100) ↔
      (rsiAvgs ps p).2 = some 0) ∧
    ((∀ d ∈ deltasOf ps, 0 ≤ d) →
      calculate_rsi (ps.map PriceEntry.num) p = Except.ok (some 100)) := by
  have havg := rsiAvgs_eq_spec ps p hp hlen
  have hnn := specAvgs_nonneg ps p hp
  constructor
  · rw [calculate_rsi_num_core ps p hlen]
    by_cases hz : (specAvgs ps p).2 = 0
    · rw [rsiCore_avgs_zero ps p _ (by rw [havg, hz]), havg, hz]
      simp
    · have hl : 0 < (specAvgs ps p).2 := lt_of_le_of_ne hnn.2 (Ne.symm hz)
      have hrs : 0 ≤ (specAvgs ps p).1 / (specAvgs ps p).2 :=
        div_nonneg hnn.1 hl.le
      have hlt : 100 - 100 / (1 + (specAvgs ps p).1 / (specAvgs ps p).2) < 100 := by
        have : 0 < 100 / (1 + (specAvgs ps p).1 / (specAvgs ps p).2) :=
          div_pos (by norm_num) (by linarith)
        linarith
      rw [rsiCore_avgs_pos ps p _ _ havg hnn.1 hl, havg]
      simp only [Prod.snd, Except.ok.injEq, Option.some.injEq]
      constructor
      · intro h
        linarith
      · intro h
        exact absurd h hz
  · intro hd
    have hz : (specAvgs ps p).2 = 0 := specAvgs_snd_zero ps p hd
    rw [calculate_rsi_num_core ps p hlen, rsiCore_avgs_zero ps p _ (by rw [havg, hz])]

/-- Witness for C4 at the non-decreasing prices [1, 2, 3] with period 1. -/
theorem calculate_rsi_100_iff_avg_loss_zero_witness :
    calculate_rsi ([1, 2, 3].map PriceEntry.num) 1 = Except.ok (some 100) :=
  (calculate_rsi_100_iff_avg_loss_zero [1, 2, 3] 1 (by norm_num) (by decide)).2
    (by
      intro d hd
      simp only [deltasOf, List.tail_cons, List.zipWith_cons_cons,
        List.zipWith_nil_right, List.mem_cons] at hd
      rcases hd with h | h | h
      · rw [h]; norm_num
      · rw [h]; norm_num
      · simp at h)

/-- C6 counterexample: at the empty price list with period 1 the function
returns no value at all — it raises IndexError — so the claim, quantified over
every numeric price sequence, fails at this input. -/
theorem calculate_rsi_empty_no_value :
    ¬ ∃ r : ℚ, calculate_rsi ([] : List PriceEntry) 1 = Except.ok (some r) ∧
      0 ≤ r ∧ r ≤ 100 := by
  rintro ⟨r, hr, -, -⟩
  simp [calculate_rsi] at hr

/-- C6 amended: on every non-empty numeric price list and every period of at
least 1, calculate_rsi returns a value, and that value lies in [0, 100]. -/
theorem calculate_rsi_bounded (ps : List ℚ) (p : ℕ) (hp : 1 ≤ p)
    (hne : ps ≠ []) :
    ∃ r : ℚ, calculate_rsi (ps.map PriceEntry.num) p = Except.ok (some r) ∧
      0 ≤ r ∧ r ≤ 100 := by
  rcases lt_or_le ps.length (p + 1) with hlt | hge
  · exact ⟨50, calculate_rsi_num_insufficient ps p hne hlt, by norm_num,
      by norm_num⟩
  · have havg := rsiAvgs_eq_spec ps p hp hge
    have hnn := specAvgs_nonneg ps p hp
    by_cases hz : (specAvgs ps p).2 = 0
    · exact ⟨100, by rw [calculate_rsi_num_core ps p hge,
        rsiCore_avgs_zero ps p _ (by rw [havg, hz])], by norm_num, le_refl 100⟩
    · have hl : 0 < (specAvgs ps p).2 := lt_of_le_of_ne hnn.2 (Ne.symm hz)
      have hrs : 0 ≤ (specAvgs ps p).1 / (specAvgs ps p).2 :=
        div_nonneg hnn.1 hl.le
      refine ⟨100 - 100 / (1 + (specAvgs ps p).1 / (specAvgs ps p).2),
        ?_, ?_, ?_⟩
      · rw [calculate_rsi_num_core ps p hge,
          rsiCore_avgs_pos ps p _ _ havg hnn.1 hl]
      · have hle : 100 / (1 + (specAvgs ps p).1 / (specAvgs ps p).2) ≤ 100 :=
          div_le_self (by norm_num) (by linarith)
        linarith
      · have hpos : 0 < 100 / (1 + (specAvgs ps p).1 / (specAvgs ps p).2) :=
          div_pos (by norm_num) (by linarith)
        linarith

/-- Witness for C6 at the concrete prices [2, 1] with period 1. -/
theorem calculate_rsi_bounded_witness :
    ∃ r : ℚ, calculate_rsi ([2, 1].map PriceEntry.num) 1 = Except.ok (some r) ∧
      0 ≤ r ∧ r ≤ 100 :=
  calculate_rsi_bounded [2, 1] 1 (by norm_num) (by decide)

/-- C7: on two valid inputs whose final average losses are positive, the RSI
output is monotone in the ratio of final average gain to final average loss. -/
theorem rsi_monotone_in_rs (ps1 ps2 : List ℚ) (p1 p2 : ℕ) (g1 l1 g2 l2 : ℚ)
    (hp1 : 1 ≤ p1) (hp2 : 1 ≤ p2)
    (hlen1 : p1 + 1 ≤ ps1.length) (hlen2 : p2 + 1 ≤ ps2.length)
    (ha1 : rsiAvgs ps1 p1 = (some g1, some l1))
    (ha2 : rsiAvgs ps2 p2 = (some g2, some l2))
    (hl1 : 0 < l1) (hl2 : 0 < l2)
    (hrs : g1 / l1 ≤ g2 / l2) :
    ∃ r1 r2 : ℚ,
      calculate_rsi (ps1.map PriceEntry.num) p1 = Except.ok (some r1) ∧
      calculate_rsi (ps2.map PriceEntry.num) p2 = Except.ok (some r2) ∧
      r1 ≤ r2 := by
  have hs1 := (rsiAvgs_eq_spec ps1 p1 hp1 hlen1).symm.trans ha1
  have hs2 := (rsiAvgs_eq_spec ps2 p2 hp2 hlen2).symm.trans ha2
  rw [Prod.mk.injEq] at hs1 hs2
  have hg1 : 0 ≤ g1 := by
    rw [← Option.some.inj hs1.1]
    exact (specAvgs_nonneg ps1 p1 hp1).1
  have hg2 : 0 ≤ g2 := by
    rw [← Option.some.inj hs2.1]
    exact (specAvgs_nonneg ps2 p2 hp2).1
  have hrs1 : 0 ≤ g1 / l1 := div_nonneg hg1 hl1.le
  refine ⟨100 - 100 / (1 + g1 / l1), 100 - 100 / (1 + g2 / l2), ?_, ?_, ?_⟩
  · rw [calculate_rsi_num_core ps1 p1 hlen1,
      rsiCore_avgs_pos ps1 p1 g1 l1 ha1 hg1 hl1]
  · rw [calculate_rsi_num_core ps2 p2 hlen2,
      rsiCore_avgs_pos ps2 p2 g2 l2 ha2 hg2 hl2]
  · have hmono : 100 / (1 + g2 / l2) ≤ 100 / (1 + g1 / l1) := by
      apply div_le_div_of_nonneg_left (by norm_num) (by linarith)
      linarith
    linarith

/-- Witness for C7: prices [2, 1] with period 1 (ratio 0) against prices
[3, 1, 2] with period 2 (ratio 1/2). -/
theorem rsi_monotone_in_rs_witness :
    ∃ r1 r2 : ℚ,
      calculate_rsi ([2, 1].map PriceEntry.num) 1 = Except.ok (some r1) ∧
      calculate_rsi ([3, 1, 2].map PriceEntry.num) 2 = Except.ok (some r2) ∧
      r1 ≤ r2 :=
  rsi_monotone_in_rs [2, 1] [3, 1, 2] 1 2 0 1 (1 / 2) 1 (by norm_num)
    (by norm_num) (by decide) (by decide)
    (by norm_num [rsiAvgs, deltasOf, gainOf, lossOf, npMean, smoothStep,
      fAdd, fMul, fDiv])
    (by norm_num [rsiAvgs, deltasOf, gainOf, lossOf, npMean, smoothStep,
      fAdd, fMul, fDiv])
    (by norm_num) (by norm_num) (by norm_num)

/-- C8: supplying candle records is the same as projecting their close fields
first — calculate_rsi gives identical results on both. -/
theorem calculate_rsi_candles_eq_closes (closes : List ℚ) (p : ℕ)
    (hne : closes ≠ []) (_hp : 1 ≤ p) :
    calculate_rsi (closes.map PriceEntry.candle) p =
      calculate_rsi (closes.map PriceEntry.num) p := by
  cases closes with
  | nil => simp at hne
  | cons c rest =>
    have hpc : projectCloses (PriceEntry.candle c :: rest.map PriceEntry.candle) =
        Except.ok (c :: rest) := projectCloses_map_candle (c :: rest)
    have hfl : toFloats (PriceEntry.num c :: rest.map PriceEntry.num) =
        Except.ok (c :: rest) := toFloats_map_num (c :: rest)
    simp [calculate_rsi, hpc, hfl]

/-- Witness for C8 at the concrete closes [1, 2, 1] with period 1. -/
theorem calculate_rsi_candles_eq_closes_witness :
    calculate_rsi ([1, 2, 1].map PriceEntry.candle) 1 =
      calculate_rsi ([1, 2, 1].map PriceEntry.num) 1 :=
  calculate_rsi_candles_eq_closes [1, 2, 1] 1 (by decide) (by norm_num)
